import Mathlib

/-!
Verification of `src/transect_extraction_functions.py`.

The two Python functions `addpts` (arc-length resampler) and
`make_perp_transects` (perpendicular transect generator) are embedded
shallowly over an exact linearly ordered field `K` (instantiated at `ℝ`
with `Real.sqrt` in the theorems).  Python's float square root
`** (1/2)` is passed in as a function parameter `sqrt : K → K` so that
the definitions stay computable; every Python float division is guarded
exactly where CPython raises `ZeroDivisionError`, and list indexing is
guarded where CPython raises `IndexError`.
-/

/-- Python run-time errors that the source can raise: float division by
zero, list index out of range, and reading a local variable that was
never assigned. -/
inductive PyErr : Type
  | zeroDivisionError
  | indexError
  | nameError
deriving DecidableEq, Repr

/-- Python float division `a / b`; CPython raises `ZeroDivisionError`
when `b == 0` (also for `0.0 / 0.0`). -/
def pydiv {K : Type} [LinearOrderedField K] (a b : K) : Except PyErr K :=
  if b = 0 then .error .zeroDivisionError else .ok (a / b)

/-- Python list indexing `l[i]` for a nonnegative index `i`. -/
def pyget {K : Type} (l : List K) (i : ℕ) : Except PyErr K :=
  match l[i]? with
  | some v => .ok v
  | none => .error .indexError

/-- Python `int()` applied to an exact value: truncation toward zero. -/
def pyInt {K : Type} [LinearOrderedField K] [FloorRing K] (q : K) : ℤ :=
  if 0 ≤ q then ⌊q⌋ else ⌈q⌉

/-- Accumulator state of `addpts`: the `(l, x, y)` triples appended so
far, most recent first (so Python's `l[-1]`, `xpts[-1]`, `ypts[-1]` is
the head), together with the carried remainder `rem_l`. -/
structure AState (K : Type) where
  out : List (K × K × K)
  rem_l : K

/-- Iterations `pt = 1, …, n-1` of the inner loop of `addpts` (source
lines 46–52): each later point adds `(dl, dx, dy)` to the previous
output point, where `dx = (x2-x1)*dl/dL` and `dy = (y2-y1)*dl/dL`. -/
def restLoop {K : Type} [LinearOrderedField K] (dx dy dl : K) :
    ℕ → (K × K × K) → List (K × K × K) → List (K × K × K)
  | 0, _, out => out
  | k + 1, prev, out =>
    let p : K × K × K := (prev.1 + dl, prev.2.1 + dx, prev.2.2 + dy)
    restLoop dx dy dl k p (p :: out)

/-- Squared-length-then-root of one polyline segment, Python's
`((x2-x1)**2 + (y2-y1)**2)**(1/2)` (source line 33). -/
def segLen {K : Type} [LinearOrderedField K] (sqrt : K → K)
    (seg : (K × K) × (K × K)) : K :=
  sqrt ((seg.2.1 - seg.1.1) ^ 2 + (seg.2.2 - seg.1.2) ^ 2)

/-- One iteration of the segment loop of `addpts` (source lines 31–55):
compute the segment length `dL`, the count `n = int((rem_l + dL) / dl)`,
append the `n` new points (the first consumes the remainder, source
lines 39–45), and update `rem_l += dL - n*dl`.  The division by `dl`
raises when `dl = 0`; the divisions by `dL` inside the point loop raise
when the loop runs (`n ≥ 1`) with `dL = 0`. -/
def segStep {K : Type} [LinearOrderedField K] [FloorRing K] (sqrt : K → K)
    (dl : K) (st : AState K) (seg : (K × K) × (K × K)) : Except PyErr (AState K) :=
  let x1 := seg.1.1
  let y1 := seg.1.2
  let x2 := seg.2.1
  let y2 := seg.2.2
  let dL := segLen sqrt seg
  if dl = 0 then .error .zeroDivisionError
  else
    let n : ℤ := pyInt ((st.rem_l + dL) / dl)
    if n.toNat = 0 then
      .ok ⟨st.out, st.rem_l + dL - (n : K) * dl⟩
    else
      if dL = 0 then .error .zeroDivisionError
      else
        let last := st.out.headD (0, 0, 0)
        let first : K × K × K :=
          (last.1 + dl,
           x1 + (x2 - x1) * (dl - st.rem_l) / dL,
           y1 + (y2 - y1) * (dl - st.rem_l) / dL)
        .ok ⟨restLoop ((x2 - x1) * dl / dL) ((y2 - y1) * dl / dL) dl
               (n.toNat - 1) first (first :: st.out),
             st.rem_l + dL - (n : K) * dl⟩

/-- Embedding of `addpts` (source lines 4–56): seed the output with the
first vertex at arc length `0`, fold the segment loop over
`zip(coords[:-1], coords[1:])`, and return the parallel lists
`(l, xpts, ypts)` in append order.  An empty coordinate list raises
`IndexError` at `coords[0]`. -/
def addpts {K : Type} [LinearOrderedField K] [FloorRing K] (sqrt : K → K)
    (coords : List (K × K)) (dl : K) : Except PyErr (List K × List K × List K) :=
  match coords with
  | [] => .error .indexError
  | (x0, y0) :: _ =>
    match (coords.zip coords.tail).foldlM (segStep sqrt dl) ⟨[(0, x0, y0)], 0⟩ with
    | .error e => .error e
    | .ok st =>
      let rev := st.out.reverse
      .ok (rev.map (fun p => p.1), rev.map (fun p => p.2.1),
           rev.map (fun p => p.2.2))

/-- Local slope `S` of the centerline around index `i`, the value of
`(ypts[i+1] - ypts[i-1]) / (xpts[i+1] - xpts[i-1])` (source line 87),
as a total function of the four neighbour coordinates. -/
def slopeS {K : Type} [LinearOrderedField K] (xm ym xp yp : K) : K :=
  (yp - ym) / (xp - xm)

/-- Perpendicular slope `St = -1/S` (source line 88), as a total
function. -/
def slopeSt {K : Type} [LinearOrderedField K] (S : K) : K :=
  -1 / S

/-- The shift `x_shift = L / (2 * sqrt(1 + St^2))` (source line 91), as
a total function. -/
def xShift {K : Type} [LinearOrderedField K] (sqrt : K → K) (L St : K) : K :=
  L / (2 * sqrt (1 + St ^ 2))

/-- The shift `y_shift = St * x_shift` (source line 92), as a total
function. -/
def yShift {K : Type} [LinearOrderedField K] (sqrt : K → K) (L St : K) : K :=
  St * xShift sqrt L St

/-- Construction of the oriented transect segment at interior index `i`
(source lines 87–104): slope `S`, perpendicular slope `St`, the two
shifted endpoints, and the orientation branch on `ypts[i+1]` versus
`ypts[i-1]`.  When the two `y` values are equal neither branch assigns
`line`; that fall-through is reported as `nameError` here (the caller
`perpStep` models Python's actual reuse of the previous iteration's
`line`). -/
def transectLine {K : Type} [LinearOrderedField K] (sqrt : K → K)
    (xpts ypts : List K) (L : K) (i : ℕ) : Except PyErr (List (K × K)) := do
  let ym ← pyget ypts (i - 1)
  let yp ← pyget ypts (i + 1)
  let xm ← pyget xpts (i - 1)
  let xp ← pyget xpts (i + 1)
  let xi ← pyget xpts i
  let yi ← pyget ypts i
  let S ← pydiv (yp - ym) (xp - xm)
  let St ← pydiv (-1) S
  let x_shift ← pydiv L (2 * sqrt (1 + St ^ 2))
  let y_shift := St * x_shift
  let x1 := xi + x_shift
  let y1 := yi + y_shift
  let x2 := xi - x_shift
  let y2 := yi - y_shift
  if yp > ym then .ok [(x2, y2), (x1, y1)]
  else if yp < ym then .ok [(x1, y1), (x2, y2)]
  else .error .nameError

/-- One whole loop iteration of `make_perp_transects` at index `i`,
taken in isolation with a fresh (unassigned) `line` variable: build the
oriented segment, resample it with `addpts` at interval `DEM_res`
(source line 107), and return the `(trans_x, trans_y, trans_l)` triple
appended to `transects` (source line 108). -/
def transectAt {K : Type} [LinearOrderedField K] [FloorRing K] (sqrt : K → K)
    (xpts ypts : List K) (L DEM_res : K) (i : ℕ) :
    Except PyErr (List K × List K × List K) := do
  let line ← transectLine sqrt xpts ypts L i
  let r ← addpts sqrt line DEM_res
  .ok (r.2.1, r.2.2, r.1)

/-- Loop state of `make_perp_transects`: the `transects` accumulator
(most recent first) and the current value of the Python local `line`
(`none` before the first assignment). -/
structure TState (K : Type) where
  transects : List (List K × List K × List K)
  prevLine : Option (List (K × K))

/-- One iteration of the loop of `make_perp_transects` (source lines
84–108) from the running state: as `transectAt`, except that when
neither orientation branch assigns `line` (both `y` neighbours equal,
reachable only if the slope computations were to succeed there) Python
silently reuses the previous iteration's `line`, or raises `NameError`
on the first iteration. -/
def perpStep {K : Type} [LinearOrderedField K] [FloorRing K] (sqrt : K → K)
    (xpts ypts : List K) (L DEM_res : K) (st : TState K) (i : ℕ) :
    Except PyErr (TState K) :=
  match transectLine sqrt xpts ypts L i with
  | .ok line =>
    match addpts sqrt line DEM_res with
    | .ok r => .ok ⟨(r.2.1, r.2.2, r.1) :: st.transects, some line⟩
    | .error e => .error e
  | .error .nameError =>
    match st.prevLine with
    | some line =>
      match addpts sqrt line DEM_res with
      | .ok r => .ok ⟨(r.2.1, r.2.2, r.1) :: st.transects, some line⟩
      | .error e => .error e
    | none => .error .nameError
  | .error e => .error e

/-- Embedding of `make_perp_transects` (source lines 58–110): iterate
`perpStep` over the interior indices `range(1, len(xpts) - 1)` and
return the accumulated transects in loop order. -/
def make_perp_transects {K : Type} [LinearOrderedField K] [FloorRing K]
    (sqrt : K → K) (xpts ypts : List K) (L DEM_res : K) :
    Except PyErr (List (List K × List K × List K)) :=
  match (List.range' 1 (xpts.length - 2)).foldlM
      (perpStep sqrt xpts ypts L DEM_res) ⟨[], none⟩ with
  | .error e => .error e
  | .ok st => .ok st.transects.reverse

/-- Executing all interior loop iterations independently, each with a
fresh `line` variable.  `make_perp_transects` is proved equal to this
(the stale-`line` path is unreachable), which pins down the order and
provenance of the output transects. -/
def transectsMapped {K : Type} [LinearOrderedField K] [FloorRing K]
    (sqrt : K → K) (xpts ypts : List K) (L DEM_res : K) :
    Except PyErr (List (List K × List K × List K)) :=
  (List.range' 1 (xpts.length - 2)).mapM (transectAt sqrt xpts ypts L DEM_res)

lemma pydiv_ok_iff {K : Type} [LinearOrderedField K] {a b c : K} :
    pydiv a b = .ok c ↔ b ≠ 0 ∧ a / b = c := by
  unfold pydiv
  split <;> rename_i h <;> simp_all

lemma pyget_ok_iff {K : Type} {l : List K} {i : ℕ} {v : K} :
    pyget l i = .ok v ↔ l[i]? = some v := by
  unfold pyget
  cases h : l[i]? <;> simp_all

lemma restLoop_ne_nil {K : Type} [LinearOrderedField K] (dx dy dl : K) :
    ∀ (k : ℕ) (p : K × K × K) (out : List (K × K × K)), out ≠ [] →
      restLoop dx dy dl k p out ≠ [] := by
  intro k
  induction k with
  | zero => intro p out h; exact h
  | succ k ih =>
    intro p out h
    rw [restLoop]
    exact ih _ _ (by simp)

lemma restLoop_last {K : Type} [LinearOrderedField K] (dx dy dl : K) :
    ∀ (k : ℕ) (p : K × K × K) (out : List (K × K × K)), out ≠ [] →
      (restLoop dx dy dl k p out).getLast? = out.getLast? := by
  intro k
  induction k with
  | zero => intro p out h; rfl
  | succ k ih =>
    intro p out h
    rw [restLoop]
    rw [ih _ _ (by simp)]
    cases out with
    | nil => exact absurd rfl h
    | cons o t => exact List.getLast?_cons_cons

lemma restLoop_chain {K : Type} [LinearOrderedField K] (dx dy dl : K) :
    ∀ (k : ℕ) (p : K × K × K) (out : List (K × K × K)),
      out.head? = some p →
      List.Chain' (fun a b => a.1 = b.1 + dl) out →
      List.Chain' (fun a b => a.1 = b.1 + dl) (restLoop dx dy dl k p out) := by
  intro k
  induction k with
  | zero => intro p out _ hch; exact hch
  | succ k ih =>
    intro p out hp hch
    rw [restLoop]
    refine ih _ _ ?_ ?_
    · rfl
    · cases out with
      | nil => simp at hp
      | cons o t =>
        have ho : o = p := by simpa using hp
        subst ho
        exact List.chain'_cons.mpr ⟨rfl, hch⟩

lemma segStep_master (dl : ℝ) (st : AState ℝ) (seg : (ℝ × ℝ) × (ℝ × ℝ))
    (hdl : 0 < dl) (h0 : 0 ≤ st.rem_l) (h1 : st.rem_l < dl) :
    ∃ st' : AState ℝ, segStep Real.sqrt dl st seg = .ok st' ∧
      0 ≤ st'.rem_l ∧ st'.rem_l < dl ∧
      (segLen Real.sqrt seg = 0 →
        pyInt ((st.rem_l + segLen Real.sqrt seg) / dl) = 0 ∧ st' = st) ∧
      (st.out ≠ [] →
        List.Chain' (fun a b => a.1 = b.1 + dl) st.out →
        (st'.out ≠ [] ∧
         List.Chain' (fun a b => a.1 = b.1 + dl) st'.out ∧
         st'.out.getLast? = st.out.getLast?)) := by
  have hdL : 0 ≤ segLen Real.sqrt seg := Real.sqrt_nonneg _
  set dL := segLen Real.sqrt seg with hdLdef
  set q := (st.rem_l + dL) / dl with hqdef
  have hq0 : 0 ≤ q := div_nonneg (by linarith) hdl.le
  have hpy : pyInt q = ⌊q⌋ := if_pos hq0
  have hqdl : q * dl = st.rem_l + dL := div_mul_cancel₀ _ hdl.ne'
  have key : st.rem_l + dL - (⌊q⌋ : ℝ) * dl = Int.fract q * dl := by
    rw [Int.fract, sub_mul, hqdl]
  have hrem0 : 0 ≤ st.rem_l + dL - (⌊q⌋ : ℝ) * dl := by
    rw [key]; exact mul_nonneg (Int.fract_nonneg q) hdl.le
  have hrem1 : st.rem_l + dL - (⌊q⌋ : ℝ) * dl < dl := by
    rw [key]
    calc Int.fract q * dl < 1 * dl := mul_lt_mul_of_pos_right (Int.fract_lt_one q) hdl
    _ = dl := one_mul dl
  by_cases hn0 : (pyInt q).toNat = 0
  · -- no point fits: the output is unchanged, only the remainder grows
    refine ⟨⟨st.out, st.rem_l + dL - ((pyInt q : ℤ) : ℝ) * dl⟩, ?_, ?_, ?_, ?_, ?_⟩
    · simp only [segStep, ← hdLdef, ← hqdef, if_neg hdl.ne', if_pos hn0]
    · simpa [hpy] using hrem0
    · simpa [hpy] using hrem1
    · intro hdL0
      have hq1 : q < 1 := by
        rw [hqdef, hdL0, add_zero]
        exact (div_lt_one hdl).mpr h1
      have hfl : ⌊q⌋ = 0 := by
        rw [Int.floor_eq_zero_iff]
        exact ⟨hq0, hq1⟩
      constructor
      · rw [hpy, hfl]
      · cases st with
        | mk out rem =>
          simp [hpy, hfl, hdL0]
    · intro hne hch
      exact ⟨hne, hch, rfl⟩
  · -- at least one point fits, so dL > 0 and the loop appends points
    have hn1 : 1 ≤ ⌊q⌋ := by
      rcases lt_or_le ⌊q⌋ 1 with h | h
      · exfalso
        apply hn0
        rw [hpy]
        omega
      · exact h
    have hq1 : (1 : ℝ) ≤ q := by
      have := Int.le_floor.mp hn1
      exact_mod_cast this
    have hdLpos : 0 < dL := by
      have : dl ≤ st.rem_l + dL := by
        calc dl = 1 * dl := (one_mul dl).symm
        _ ≤ q * dl := mul_le_mul_of_nonneg_right hq1 hdl.le
        _ = st.rem_l + dL := hqdl
      linarith
    refine ⟨⟨restLoop ((seg.2.1 - seg.1.1) * dl / dL) ((seg.2.2 - seg.1.2) * dl / dL) dl
        ((pyInt q).toNat - 1)
        ((st.out.headD (0, 0, 0)).1 + dl,
          seg.1.1 + (seg.2.1 - seg.1.1) * (dl - st.rem_l) / dL,
          seg.1.2 + (seg.2.2 - seg.1.2) * (dl - st.rem_l) / dL)
        (((st.out.headD (0, 0, 0)).1 + dl,
          seg.1.1 + (seg.2.1 - seg.1.1) * (dl - st.rem_l) / dL,
          seg.1.2 + (seg.2.2 - seg.1.2) * (dl - st.rem_l) / dL) :: st.out),
        st.rem_l + dL - ((pyInt q : ℤ) : ℝ) * dl⟩, ?_, ?_, ?_, ?_, ?_⟩
    · simp only [segStep, ← hdLdef, ← hqdef, if_neg hdl.ne', if_neg hn0, if_neg hdLpos.ne']
    · simpa [hpy] using hrem0
    · simpa [hpy] using hrem1
    · intro hdL0
      exact absurd hdL0 hdLpos.ne'
    · intro hne hch
      cases hout : st.out with
      | nil => exact absurd hout hne
      | cons o t =>
        rw [hout] at hch
        refine ⟨restLoop_ne_nil _ _ _ _ _ _ (by simp), ?_, ?_⟩
        · refine restLoop_chain _ _ _ _ _ _ ?_ ?_
          · rfl
          · exact List.chain'_cons.mpr ⟨by simp, hch⟩
        · rw [restLoop_last _ _ _ _ _ _ (by simp)]
          exact List.getLast?_cons_cons

lemma foldlM_segStep_master (dl : ℝ) (hdl : 0 < dl) :
    ∀ (segs : List ((ℝ × ℝ) × (ℝ × ℝ))) (st : AState ℝ),
      0 ≤ st.rem_l → st.rem_l < dl → st.out ≠ [] →
      List.Chain' (fun a b => a.1 = b.1 + dl) st.out →
      ∃ st', segs.foldlM (segStep Real.sqrt dl) st = .ok st' ∧
        0 ≤ st'.rem_l ∧ st'.rem_l < dl ∧ st'.out ≠ [] ∧
        List.Chain' (fun a b => a.1 = b.1 + dl) st'.out ∧
        st'.out.getLast? = st.out.getLast? := by
  intro segs
  induction segs with
  | nil =>
    intro st h0 h1 hne hch
    exact ⟨st, rfl, h0, h1, hne, hch, rfl⟩
  | cons seg segs ih =>
    intro st h0 h1 hne hch
    obtain ⟨st1, heq, h0', h1', _, hcond⟩ := segStep_master dl st seg hdl h0 h1
    obtain ⟨hne1, hch1, hlast1⟩ := hcond hne hch
    obtain ⟨st', heq', a1, a2, a3, a4, a5⟩ := ih st1 h0' h1' hne1 hch1
    refine ⟨st', ?_, a1, a2, a3, a4, by rw [a5, hlast1]⟩
    rw [List.foldlM_cons, heq]
    exact heq'

lemma addpts_master (coords : List (ℝ × ℝ)) (dl : ℝ) (hdl : 0 < dl)
    (hne : coords ≠ []) :
    ∃ l xs ys, addpts Real.sqrt coords dl = .ok (l, xs, ys) ∧
      l.head? = some 0 ∧
      xs.head? = coords.head?.map Prod.fst ∧
      ys.head? = coords.head?.map Prod.snd ∧
      List.Chain' (fun a b => b = a + dl) l ∧
      l ≠ [] ∧ l.length = xs.length ∧ l.length = ys.length := by
  match coords with
  | [] => exact absurd rfl hne
  | (x0, y0) :: rest =>
    obtain ⟨st', hfold, _, _, hne', hch', hlast'⟩ :=
      foldlM_segStep_master dl hdl
        (((x0, y0) :: rest).zip ((x0, y0) :: rest).tail)
        ⟨[(0, x0, y0)], 0⟩ le_rfl hdl (by simp) (by simp)
    refine ⟨st'.out.reverse.map (fun p => p.1),
            st'.out.reverse.map (fun p => p.2.1),
            st'.out.reverse.map (fun p => p.2.2), ?_, ?_, ?_, ?_, ?_, ?_, ?_, ?_⟩
    · simp only [addpts]
      rw [hfold]
    · rw [List.head?_map, List.head?_reverse, hlast']
      rfl
    · rw [List.head?_map, List.head?_reverse, hlast']
      rfl
    · rw [List.head?_map, List.head?_reverse, hlast']
      rfl
    · rw [List.chain'_map, List.chain'_reverse]
      exact hch'
    · simp [hne']
    · simp
    · simp

lemma exceptBind_ok {ε α β : Type} (a : α) (f : α → Except ε β) :
    ((Except.ok a : Except ε α) >>= f) = f a := rfl

lemma exceptBind_error {ε α β : Type} (e : ε) (f : α → Except ε β) :
    ((Except.error e : Except ε α) >>= f) = Except.error e := rfl

lemma exceptPure {ε α : Type} (a : α) :
    (pure a : Except ε α) = Except.ok a := rfl

/-- C1: for every polyline with at least 2 vertices and every interval
`dl > 0`, the arc-length list returned by the resampler `addpts` starts
at exactly `0`, every pair of consecutive values differs by exactly
`dl`, and consequently the list is strictly increasing (in particular
after index 0). -/
theorem addpts_arc_length_progression (coords : List (ℝ × ℝ)) (dl : ℝ)
    (hlen : 2 ≤ coords.length) (hdl : 0 < dl) :
    ∃ l xs ys, addpts Real.sqrt coords dl = .ok (l, xs, ys) ∧
      l.head? = some 0 ∧
      List.Chain' (fun a b => b = a + dl) l ∧
      List.Chain' (fun a b => a < b) l := by
  obtain ⟨l, xs, ys, heq, h0, _, _, hch, _, _, _⟩ :=
    addpts_master coords dl hdl (by intro h; rw [h] at hlen; simp at hlen)
  refine ⟨l, xs, ys, heq, h0, hch, hch.imp ?_⟩
  intro a b hab
  rw [hab]
  linarith

/-- Witness: the C1 theorem applied to the concrete polyline
`[(0,0), (3,4)]` with `dl = 1`. -/
theorem addpts_arc_length_progression_witness :
    2 ≤ ([((0:ℝ), 0), (3, 4)] : List (ℝ × ℝ)).length ∧ (0:ℝ) < 1 ∧
      (∃ l xs ys, addpts Real.sqrt [((0:ℝ), 0), (3, 4)] 1 = .ok (l, xs, ys) ∧
        l.head? = some 0 ∧
        List.Chain' (fun a b => b = a + 1) l ∧
        List.Chain' (fun a b => a < b) l) :=
  ⟨by simp, by norm_num,
    addpts_arc_length_progression [((0:ℝ), 0), (3, 4)] 1 (by simp) (by norm_num)⟩

/-- C9: for `dl > 0`, one segment iteration of the resampler started
with remainder `0 ≤ rem_l < dl` succeeds and finishes with remainder
again in `[0, dl)`; consequently on a segment of length `0` the point
count `n` is `0` and the state is unchanged — the inner loop (and its
division by the segment length) is never executed. -/
theorem segStep_remainder_invariant (dl : ℝ) (st : AState ℝ)
    (seg : (ℝ × ℝ) × (ℝ × ℝ)) (hdl : 0 < dl) (h0 : 0 ≤ st.rem_l)
    (h1 : st.rem_l < dl) :
    ∃ st', segStep Real.sqrt dl st seg = .ok st' ∧
      0 ≤ st'.rem_l ∧ st'.rem_l < dl ∧
      (segLen Real.sqrt seg = 0 →
        pyInt ((st.rem_l + segLen Real.sqrt seg) / dl) = 0 ∧ st' = st) := by
  obtain ⟨st', heq, a1, a2, a3, _⟩ := segStep_master dl st seg hdl h0 h1
  exact ⟨st', heq, a1, a2, a3⟩

/-- Witness: the C9 theorem applied to a zero-length segment (the
duplicated vertex `(3,4)`), carried remainder `1`, interval `2`. -/
theorem segStep_remainder_invariant_witness :
    (0:ℝ) < 2 ∧ (0 : ℝ) ≤ (AState.mk [((0:ℝ), 0, 0)] 1).rem_l ∧
      (AState.mk [((0:ℝ), 0, 0)] 1).rem_l < 2 ∧
      (∃ st', segStep Real.sqrt 2 (AState.mk [((0:ℝ), 0, 0)] 1)
          (((3:ℝ), 4), (3, 4)) = .ok st' ∧
        0 ≤ st'.rem_l ∧ st'.rem_l < 2 ∧
        (segLen Real.sqrt (((3:ℝ), 4), (3, 4)) = 0 →
          pyInt (((AState.mk [((0:ℝ), 0, 0)] 1).rem_l +
              segLen Real.sqrt (((3:ℝ), 4), (3, 4))) / 2) = 0 ∧
            st' = AState.mk [((0:ℝ), 0, 0)] 1)) :=
  ⟨by norm_num, by norm_num, by norm_num,
    segStep_remainder_invariant 2 (AState.mk [((0:ℝ), 0, 0)] 1)
      (((3:ℝ), 4), (3, 4)) (by norm_num) (by norm_num) (by norm_num)⟩

/-- C6 counterexample: on the paradigm input of the claim — a polyline
with duplicate consecutive vertices `(1,0), (1,0)` — the resampler
returns normally; the division by the zero segment length is never
executed (it would surface here as a `zeroDivisionError` result). -/
theorem addpts_duplicate_vertex_runs :
    addpts Real.sqrt [((0:ℝ), 0), (1, 0), (1, 0), (2, 0)] 1 =
      .ok ([0, 1, 2], [0, 1, 2], [0, 0, 0]) := by
  norm_num [addpts, segStep, segLen, restLoop, pyInt, pydiv, List.foldlM,
    exceptBind_ok, exceptBind_error, exceptPure]

/-- C6 amended: for every nonempty polyline — in particular one with a
zero-length segment from duplicate consecutive vertices — and every
`dl > 0`, the resampler finishes without executing any division by
zero: a zero-length segment has point count `0`, so the division by the
segment length is dead there. -/
theorem addpts_no_zero_division (coords : List (ℝ × ℝ)) (dl : ℝ)
    (hne : coords ≠ []) (hdl : 0 < dl) :
    ∃ res, addpts Real.sqrt coords dl = .ok res := by
  obtain ⟨l, xs, ys, heq, _⟩ := addpts_master coords dl hdl hne
  exact ⟨(l, xs, ys), heq⟩

/-- Witness: the C6 amended theorem applied to a two-point polyline
whose single segment has length zero. -/
theorem addpts_no_zero_division_witness :
    ([((0:ℝ), 0), (0, 0)] : List (ℝ × ℝ)) ≠ [] ∧ (0:ℝ) < 1 ∧
      ∃ res, addpts Real.sqrt [((0:ℝ), 0), (0, 0)] 1 = .ok res :=
  ⟨by simp, by norm_num, addpts_no_zero_division _ _ (by simp) (by norm_num)⟩

/-- C8: resampling the straight segment from `(0,0)` to `(10,0)` (arc
length exactly 10) with `dl = 2` yields exactly 6 points at arc lengths
`[0,2,4,6,8,10]`, the last at the true endpoint; resampling the segment
to `(9,0)` (arc length 9) with `dl = 2` yields 5 points ending at arc
length 8, one unit short of the endpoint. -/
theorem addpts_straight_segment_examples :
    addpts Real.sqrt [((0:ℝ), 0), (10, 0)] 2 =
      .ok ([0, 2, 4, 6, 8, 10], [0, 2, 4, 6, 8, 10], [0, 0, 0, 0, 0, 0]) ∧
    addpts Real.sqrt [((0:ℝ), 0), (9, 0)] 2 =
      .ok ([0, 2, 4, 6, 8], [0, 2, 4, 6, 8], [0, 0, 0, 0, 0]) := by
  have h100 : Real.sqrt (100:ℝ) = 10 := by
    rw [show (100:ℝ) = 10 ^ 2 by norm_num]
    exact Real.sqrt_sq (by norm_num)
  have h81 : Real.sqrt (81:ℝ) = 9 := by
    rw [show (81:ℝ) = 9 ^ 2 by norm_num]
    exact Real.sqrt_sq (by norm_num)
  have h92 : ⌊(9 / 2 : ℝ)⌋ = 4 := Int.floor_eq_iff.mpr (by norm_num)
  constructor <;>
    norm_num [addpts, segStep, segLen, restLoop, pyInt, pydiv, h100, h81,
      h92, List.foldlM, exceptBind_ok, exceptBind_error, exceptPure]

/-- C4: neither function validates its inputs.  The resampler with
`dl = -1` returns only the first vertex with no error; a single-vertex
polyline likewise returns that vertex; `dl = 0` raises a bare
`ZeroDivisionError` (not a parameter-validation error); and a 2-point
centerline makes the transect generator return an empty list rather
than an invalid-input error. -/
theorem no_input_validation :
    addpts Real.sqrt [((0:ℝ), 0), (10, 0)] (-1) = .ok ([0], [0], [0]) ∧
    addpts Real.sqrt [((5:ℝ), 6)] 2 = .ok ([0], [5], [6]) ∧
    addpts Real.sqrt [((0:ℝ), 0), (10, 0)] 0 = .error .zeroDivisionError ∧
    make_perp_transects Real.sqrt [(0:ℝ), 10] [(0:ℝ), 0] 4 1 = .ok [] := by
  have h100 : Real.sqrt (100:ℝ) = 10 := by
    rw [show (100:ℝ) = 10 ^ 2 by norm_num]
    exact Real.sqrt_sq (by norm_num)
  have hc10 : ⌈(-10 : ℝ)⌉ = -10 := Int.ceil_eq_iff.mpr (by norm_num)
  refine ⟨?_, ?_, ?_, ?_⟩
  · norm_num [addpts, segStep, segLen, restLoop, pyInt, pydiv, h100, hc10,
      List.foldlM, exceptBind_ok, exceptBind_error, exceptPure]
  · norm_num [addpts, List.foldlM, exceptPure]
  · norm_num [addpts, segStep, segLen, restLoop, pyInt, pydiv, List.foldlM,
      exceptBind_ok, exceptBind_error, exceptPure]
  · norm_num [make_perp_transects, List.foldlM, exceptPure]

lemma exceptBind_eq_ok {ε α β : Type} {x : Except ε α} {f : α → Except ε β}
    {b : β} : (x >>= f) = .ok b ↔ ∃ a, x = .ok a ∧ f a = .ok b := by
  cases x <;> simp [exceptBind_ok, exceptBind_error]

lemma exceptBind_eq_error {ε α β : Type} {x : Except ε α} {f : α → Except ε β}
    {e : ε} : (x >>= f) = .error e ↔
      x = .error e ∨ ∃ a, x = .ok a ∧ f a = .error e := by
  cases x <;> simp [exceptBind_ok, exceptBind_error]

lemma pydiv_eq_ok {K : Type} [LinearOrderedField K] {b : K} (a : K) (hb : b ≠ 0) :
    pydiv a b = .ok (a / b) := by
  simp [pydiv, hb]

lemma pyget_eq {K : Type} (l : List K) (j : ℕ) (h : j < l.length) :
    pyget l j = .ok l[j] := by
  unfold pyget
  rw [List.getElem?_eq_getElem h]

lemma pyget_eq_ok {K : Type} {l : List K} {j : ℕ} {v : K} :
    pyget l j = .ok v ↔ l[j]? = some v := by
  unfold pyget
  cases h : l[j]? <;> simp_all

lemma pyget_eq_error {K : Type} {l : List K} {j : ℕ} {e : PyErr} :
    pyget l j = .error e ↔ l[j]? = none ∧ e = .indexError := by
  unfold pyget
  cases h : l[j]? with
  | some v => simp
  | none => simp [eq_comm]

lemma pydiv_eq_error {K : Type} [LinearOrderedField K] {a b : K} {e : PyErr} :
    pydiv a b = .error e ↔ b = 0 ∧ e = .zeroDivisionError := by
  unfold pydiv
  split <;> rename_i h <;> simp_all [eq_comm]

lemma transectLine_ok_elim {xs ys : List ℝ} {L : ℝ} {i : ℕ}
    {ln : List (ℝ × ℝ)} (h : transectLine Real.sqrt xs ys L i = .ok ln) :
    ∃ xm ym xp yp xi yi,
      xs[i - 1]? = some xm ∧ ys[i - 1]? = some ym ∧
      xs[i + 1]? = some xp ∧ ys[i + 1]? = some yp ∧
      xs[i]? = some xi ∧ ys[i]? = some yi ∧
      xp - xm ≠ 0 ∧ slopeS xm ym xp yp ≠ 0 ∧
      ((ym < yp ∧
        ln = [(xi - xShift Real.sqrt L (slopeSt (slopeS xm ym xp yp)),
               yi - yShift Real.sqrt L (slopeSt (slopeS xm ym xp yp))),
              (xi + xShift Real.sqrt L (slopeSt (slopeS xm ym xp yp)),
               yi + yShift Real.sqrt L (slopeSt (slopeS xm ym xp yp)))]) ∨
       (yp < ym ∧
        ln = [(xi + xShift Real.sqrt L (slopeSt (slopeS xm ym xp yp)),
               yi + yShift Real.sqrt L (slopeSt (slopeS xm ym xp yp))),
              (xi - xShift Real.sqrt L (slopeSt (slopeS xm ym xp yp)),
               yi - yShift Real.sqrt L (slopeSt (slopeS xm ym xp yp)))])) := by
  simp only [transectLine, exceptBind_eq_ok, gt_iff_lt] at h
  obtain ⟨ym, hym, yp, hyp, xm, hxm, xp, hxp, xi, hxi, yi, hyi, S, hS, St,
    hSt, xsh, hxsh, hfin⟩ := h
  obtain ⟨hxm0, hSval⟩ := pydiv_ok_iff.mp hS
  obtain ⟨hS0, hStval⟩ := pydiv_ok_iff.mp hSt
  obtain ⟨hden0, hxsval⟩ := pydiv_ok_iff.mp hxsh
  have hSS : S = slopeS xm ym xp yp := hSval.symm
  have hStSt : St = slopeSt (slopeS xm ym xp yp) := by
    rw [← hStval, hSS, slopeSt]
  have hxshv : xsh = xShift Real.sqrt L (slopeSt (slopeS xm ym xp yp)) := by
    rw [← hxsval, hStSt, xShift]
  refine ⟨xm, ym, xp, yp, xi, yi, pyget_eq_ok.mp hxm, pyget_eq_ok.mp hym,
    pyget_eq_ok.mp hxp, pyget_eq_ok.mp hyp, pyget_eq_ok.mp hxi,
    pyget_eq_ok.mp hyi, hxm0, by rw [← hSS]; exact hS0, ?_⟩
  by_cases hgt : ym < yp
  · rw [if_pos hgt] at hfin
    left
    refine ⟨hgt, ?_⟩
    simp only [Except.ok.injEq] at hfin
    rw [← hfin, hxshv, hStSt, yShift, ← hxshv]
  · rw [if_neg hgt] at hfin
    by_cases hlt : yp < ym
    · rw [if_pos hlt] at hfin
      right
      refine ⟨hlt, ?_⟩
      simp only [Except.ok.injEq] at hfin
      rw [← hfin, hxshv, hStSt, yShift, ← hxshv]
    · rw [if_neg hlt] at hfin
      exact absurd hfin (by simp)

lemma exceptMap_ok {ε α β : Type} (f : α → β) (a : α) :
    Except.map f (Except.ok a : Except ε α) = .ok (f a) := rfl

lemma exceptMap_error {ε α β : Type} (f : α → β) (e : ε) :
    Except.map f (Except.error e : Except ε α) = .error e := rfl

lemma transectLine_ne_nameError (xs ys : List ℝ) (L : ℝ) (i : ℕ) :
    transectLine Real.sqrt xs ys L i ≠ .error .nameError := by
  intro h
  simp only [transectLine, exceptBind_eq_error, gt_iff_lt] at h
  rcases h with h | ⟨ym, hym, h⟩
  · exact absurd (pyget_eq_error.mp h).2 (by simp)
  rcases h with h | ⟨yp, hyp, h⟩
  · exact absurd (pyget_eq_error.mp h).2 (by simp)
  rcases h with h | ⟨xm, hxm, h⟩
  · exact absurd (pyget_eq_error.mp h).2 (by simp)
  rcases h with h | ⟨xp, hxp, h⟩
  · exact absurd (pyget_eq_error.mp h).2 (by simp)
  rcases h with h | ⟨xi, hxi, h⟩
  · exact absurd (pyget_eq_error.mp h).2 (by simp)
  rcases h with h | ⟨yi, hyi, h⟩
  · exact absurd (pyget_eq_error.mp h).2 (by simp)
  rcases h with h | ⟨S, hS, h⟩
  · exact absurd (pydiv_eq_error.mp h).2 (by simp)
  rcases h with h | ⟨St, hSt, h⟩
  · exact absurd (pydiv_eq_error.mp h).2 (by simp)
  rcases h with h | ⟨xsh, hxsh, h⟩
  · exact absurd (pydiv_eq_error.mp h).2 (by simp)
  obtain ⟨hxm0, hSval⟩ := pydiv_ok_iff.mp hS
  obtain ⟨hS0, _⟩ := pydiv_ok_iff.mp hSt
  by_cases hgt : ym < yp
  · rw [if_pos hgt] at h
    exact absurd h (by simp)
  · rw [if_neg hgt] at h
    by_cases hlt : yp < ym
    · rw [if_pos hlt] at h
      exact absurd h (by simp)
    · have heq : ym = yp := le_antisymm (not_lt.mp hlt) (not_lt.mp hgt)
      apply hS0
      rw [← hSval, heq, sub_self, zero_div]

lemma perpStep_prevLine_irrelevant (xs ys : List ℝ) (L D : ℝ) (i : ℕ)
    (ts : List (List ℝ × List ℝ × List ℝ)) (p q : Option (List (ℝ × ℝ))) :
    perpStep Real.sqrt xs ys L D ⟨ts, p⟩ i =
      perpStep Real.sqrt xs ys L D ⟨ts, q⟩ i := by
  unfold perpStep
  cases h : transectLine Real.sqrt xs ys L i with
  | ok ln => rfl
  | error e =>
    cases e with
    | zeroDivisionError => rfl
    | indexError => rfl
    | nameError => exact absurd h (transectLine_ne_nameError xs ys L i)

lemma foldlM_perpStep_eq_mapM (xs ys : List ℝ) (L D : ℝ) :
    ∀ (idxs : List ℕ) (acc : List (List ℝ × List ℝ × List ℝ))
      (p : Option (List (ℝ × ℝ))),
      Except.map TState.transects
          (idxs.foldlM (perpStep Real.sqrt xs ys L D) ⟨acc, p⟩) =
        Except.map (fun ts => ts.reverse ++ acc)
          (idxs.mapM (transectAt Real.sqrt xs ys L D)) := by
  intro idxs
  induction idxs with
  | nil =>
    intro acc p
    rw [List.foldlM_nil, List.mapM_nil, exceptPure, exceptPure, exceptMap_ok,
      exceptMap_ok]
    simp
  | cons i idxs ih =>
    intro acc p
    rw [List.foldlM_cons, List.mapM_cons]
    cases hline : transectLine Real.sqrt xs ys L i with
    | ok ln =>
      cases haddm : addpts Real.sqrt ln D with
      | ok r =>
        have hperp : perpStep Real.sqrt xs ys L D ⟨acc, p⟩ i =
            .ok ⟨(r.2.1, r.2.2, r.1) :: acc, some ln⟩ := by
          simp only [perpStep, hline, haddm]
        have htr : transectAt Real.sqrt xs ys L D i =
            .ok (r.2.1, r.2.2, r.1) := by
          simp only [transectAt, hline, exceptBind_ok, haddm]
        rw [hperp, htr]
        simp only [exceptBind_ok]
        rw [ih]
        cases hm : idxs.mapM (transectAt Real.sqrt xs ys L D) with
        | ok ts =>
          simp only [exceptBind_ok, exceptPure, exceptMap_ok]
          simp
        | error e =>
          simp only [exceptBind_error, exceptMap_error]
      | error e =>
        have hperp : perpStep Real.sqrt xs ys L D ⟨acc, p⟩ i = .error e := by
          simp only [perpStep, hline, haddm]
        have htr : transectAt Real.sqrt xs ys L D i = .error e := by
          simp only [transectAt, hline, exceptBind_ok, haddm, exceptBind_error]
        rw [hperp, htr]
        simp only [exceptBind_error, exceptMap_error]
    | error e =>
      have hperp : perpStep Real.sqrt xs ys L D ⟨acc, p⟩ i = .error e := by
        unfold perpStep
        rw [hline]
        cases e with
        | zeroDivisionError => rfl
        | indexError => rfl
        | nameError => exact absurd hline (transectLine_ne_nameError xs ys L i)
      have htr : transectAt Real.sqrt xs ys L D i = .error e := by
        simp only [transectAt, hline, exceptBind_error]
      rw [hperp, htr]
      simp only [exceptBind_error, exceptMap_error]

lemma make_perp_eq_transectsMapped (xs ys : List ℝ) (L D : ℝ) :
    make_perp_transects Real.sqrt xs ys L D =
      transectsMapped Real.sqrt xs ys L D := by
  have h := foldlM_perpStep_eq_mapM xs ys L D (List.range' 1 (xs.length - 2)) [] none
  unfold make_perp_transects transectsMapped
  cases hf : (List.range' 1 (xs.length - 2)).foldlM
      (perpStep Real.sqrt xs ys L D) ⟨[], none⟩ with
  | error e =>
    rw [hf, exceptMap_error] at h
    cases hm : (List.range' 1 (xs.length - 2)).mapM
        (transectAt Real.sqrt xs ys L D) with
    | error e' =>
      rw [hm, exceptMap_error] at h
      simp only [Except.error.injEq] at h
      rw [h]
    | ok ts =>
      rw [hm, exceptMap_ok] at h
      exact absurd h (by simp)
  | ok st =>
    rw [hf, exceptMap_ok] at h
    cases hm : (List.range' 1 (xs.length - 2)).mapM
        (transectAt Real.sqrt xs ys L D) with
    | error e' =>
      rw [hm, exceptMap_error] at h
      exact absurd h (by simp)
    | ok ts =>
      rw [hm, exceptMap_ok] at h
      simp only [Except.ok.injEq] at h
      have hst : st.transects = ts.reverse := by rw [h]; simp
      simp [hst]

lemma list_mapM_ok {ε α β : Type} (f : α → Except ε β) :
    ∀ l : List α, (∀ a ∈ l, ∃ b, f a = .ok b) →
      ∃ r, l.mapM f = .ok r ∧ r.length = l.length ∧
        ∀ j, j < l.length →
          ∃ a b, l[j]? = some a ∧ f a = .ok b ∧ r[j]? = some b := by
  intro l
  induction l with
  | nil =>
    intro _
    exact ⟨[], by rw [List.mapM_nil, exceptPure], by simp, by simp⟩
  | cons a l ih =>
    intro hall
    obtain ⟨b, hb⟩ := hall a (by simp)
    obtain ⟨r, hr, hlen, hj⟩ := ih (fun x hx => hall x (by simp [hx]))
    refine ⟨b :: r, ?_, by simp [hlen], ?_⟩
    · rw [List.mapM_cons, hb, exceptBind_ok, hr, exceptBind_ok, exceptPure]
    · intro j hj'
      cases j with
      | zero => exact ⟨a, b, by simp, hb, by simp⟩
      | succ j =>
        obtain ⟨a', b', h1, h2, h3⟩ := hj j (by simpa using hj')
        exact ⟨a', b', by simpa using h1, h2, by simpa using h3⟩

lemma transectLine_ok_of (xs ys : List ℝ) (L : ℝ) (i : ℕ)
    (hlen : ys.length = xs.length) (hi2 : i + 1 < xs.length)
    (hx : xs[i + 1]! - xs[i - 1]! ≠ 0) (hy : ys[i + 1]! - ys[i - 1]! ≠ 0) :
    ∃ ln, transectLine Real.sqrt xs ys L i = .ok ln ∧ ln ≠ [] := by
  have him : i - 1 < xs.length := by omega
  have hii : i < xs.length := by omega
  have hiy : i - 1 < ys.length := by omega
  have hiiy : i < ys.length := by omega
  have hipy : i + 1 < ys.length := by omega
  have hx' : xs[i + 1] - xs[i - 1] ≠ 0 := by
    rwa [getElem!_pos xs (i + 1) hi2, getElem!_pos xs (i - 1) him] at hx
  have hy' : ys[i + 1] - ys[i - 1] ≠ 0 := by
    rwa [getElem!_pos ys (i + 1) hipy, getElem!_pos ys (i - 1) hiy] at hy
  have hS0 : (ys[i + 1] - ys[i - 1]) / (xs[i + 1] - xs[i - 1]) ≠ 0 :=
    div_ne_zero hy' hx'
  have hden : (2 : ℝ) * Real.sqrt
      (1 + (-1 / ((ys[i + 1] - ys[i - 1]) / (xs[i + 1] - xs[i - 1]))) ^ 2) ≠ 0 := by
    have h1 : (0:ℝ) < 1 +
        (-1 / ((ys[i + 1] - ys[i - 1]) / (xs[i + 1] - xs[i - 1]))) ^ 2 := by
      positivity
    have h2 : 0 < Real.sqrt
        (1 + (-1 / ((ys[i + 1] - ys[i - 1]) / (xs[i + 1] - xs[i - 1]))) ^ 2) :=
      Real.sqrt_pos.mpr h1
    positivity
  simp only [transectLine, pyget_eq ys (i - 1) hiy, pyget_eq ys (i + 1) hipy,
    pyget_eq xs (i - 1) him, pyget_eq xs (i + 1) hi2, pyget_eq xs i hii,
    pyget_eq ys i hiiy, exceptBind_ok]
  rw [pydiv_eq_ok _ hx']
  simp only [exceptBind_ok]
  rw [pydiv_eq_ok _ hS0]
  simp only [exceptBind_ok]
  rw [pydiv_eq_ok _ hden]
  simp only [exceptBind_ok, gt_iff_lt]
  rcases lt_or_gt_of_ne (sub_ne_zero.mp hy') with hlt | hgt
  · rw [if_neg (by exact fun hc => absurd (lt_trans hc hlt) (lt_irrefl _)),
      if_pos hlt]
    exact ⟨_, rfl, by simp⟩
  · rw [if_pos hgt]
    exact ⟨_, rfl, by simp⟩

lemma transectAt_ok (xs ys : List ℝ) (L D : ℝ) (i : ℕ) (hD : 0 < D)
    (hlen : ys.length = xs.length) (hi2 : i + 1 < xs.length)
    (hx : xs[i + 1]! - xs[i - 1]! ≠ 0) (hy : ys[i + 1]! - ys[i - 1]! ≠ 0) :
    ∃ t, transectAt Real.sqrt xs ys L D i = .ok t := by
  obtain ⟨ln, hln, hlnne⟩ := transectLine_ok_of xs ys L i hlen hi2 hx hy
  obtain ⟨l, axs, ays, haddm, _⟩ := addpts_master ln D hD hlnne
  refine ⟨(axs, ays, l), ?_⟩
  simp only [transectAt, hln, exceptBind_ok, haddm]

lemma shift_sq_norm (L St : ℝ) :
    xShift Real.sqrt L St ^ 2 + yShift Real.sqrt L St ^ 2 = (L / 2) ^ 2 := by
  unfold yShift xShift
  have hu : (0:ℝ) < 1 + St ^ 2 := by positivity
  have hs : Real.sqrt (1 + St ^ 2) ^ 2 = 1 + St ^ 2 := Real.sq_sqrt hu.le
  have hspos : 0 < Real.sqrt (1 + St ^ 2) := Real.sqrt_pos.mpr hu
  have key : ((2:ℝ) * Real.sqrt (1 + St ^ 2)) ^ 2 = 4 * (1 + St ^ 2) := by
    rw [mul_pow, hs]
    norm_num
  field_simp
  rw [key]
  ring

lemma getElem_bang_of_some {l : List ℝ} {j : ℕ} {v : ℝ} (h : l[j]? = some v) :
    l[j]! = v := by
  obtain ⟨hlt, hv⟩ := List.getElem?_eq_some.mp h
  rw [getElem!_pos l j hlt, hv]

/-- C10: in `make_perp_transects`, whenever the slope computations
`S = (y[i+1]-y[i-1])/(x[i+1]-x[i-1])` and `St = -1/S` both succeed, the
`y` neighbours necessarily differ, so one orientation branch always
assigns `line`: the fall-through that would reuse the previous
iteration's `line` (modelled by `nameError` in `transectLine`) is
unreachable, and consequently an iteration's result never depends on
the carried previous `line`. -/
theorem orientation_fall_through_unreachable :
    (∀ (xs ys : List ℝ) (L : ℝ) (i : ℕ),
      transectLine Real.sqrt xs ys L i ≠ .error .nameError) ∧
    (∀ (xs ys : List ℝ) (L D : ℝ) (i : ℕ)
      (ts : List (List ℝ × List ℝ × List ℝ)) (p q : Option (List (ℝ × ℝ))),
      perpStep Real.sqrt xs ys L D ⟨ts, p⟩ i =
        perpStep Real.sqrt xs ys L D ⟨ts, q⟩ i) :=
  ⟨transectLine_ne_nameError, perpStep_prevLine_irrelevant⟩

/-- C2 counterexample: for the 3-point horizontal centerline
`(0,0), (1,0), (2,0)` with `L = 4 > 0` and `DEM_res = 1 > 0`, the
generator raises a `ZeroDivisionError` (at `St = -1/S` with `S = 0`)
instead of returning `3 - 2 = 1` transect. -/
theorem make_perp_horizontal_raises :
    make_perp_transects Real.sqrt [(0:ℝ), 1, 2] [(0:ℝ), 0, 0] 4 1 =
      .error .zeroDivisionError := by
  norm_num [make_perp_transects, perpStep, transectLine, pyget, pydiv,
    List.foldlM, exceptBind_ok, exceptBind_error, exceptPure]

/-- C2 amended (the unrestricted claim fails on centerlines with a
vertical or horizontal central-difference chord, where a slope
computation divides by zero): for every centerline whose interior
indices all have `x[i+1] ≠ x[i-1]` and `y[i+1] ≠ y[i-1]`, with positive
`L` and `DEM_res`, `make_perp_transects` returns exactly
`len(centerline) - 2` transects, the `j`-th being the transect of
interior index `j + 1` — one per interior index, in centerline order. -/
theorem make_perp_count_interior (xs ys : List ℝ) (L D : ℝ)
    (hlen : ys.length = xs.length) (h3 : 3 ≤ xs.length) (_hL : 0 < L)
    (hD : 0 < D)
    (hnd : ∀ i ∈ List.range' 1 (xs.length - 2),
      xs[i + 1]! - xs[i - 1]! ≠ 0 ∧ ys[i + 1]! - ys[i - 1]! ≠ 0) :
    ∃ ts, make_perp_transects Real.sqrt xs ys L D = .ok ts ∧
      ts.length = xs.length - 2 ∧
      ∀ j, j < xs.length - 2 →
        ∃ t, transectAt Real.sqrt xs ys L D (1 + j) = .ok t ∧
          ts[j]? = some t := by
  rw [make_perp_eq_transectsMapped]
  unfold transectsMapped
  have hsucc : ∀ i ∈ List.range' 1 (xs.length - 2),
      ∃ t, transectAt Real.sqrt xs ys L D i = .ok t := by
    intro i hi
    obtain ⟨hx, hy⟩ := hnd i hi
    have hmem : 1 ≤ i ∧ i < 1 + (xs.length - 2) := List.mem_range'_1.mp hi
    exact transectAt_ok xs ys L D i hD hlen (by omega) hx hy
  obtain ⟨r, hr, hrlen, hj⟩ := list_mapM_ok (transectAt Real.sqrt xs ys L D)
      (List.range' 1 (xs.length - 2)) hsucc
  refine ⟨r, hr, by simpa using hrlen, ?_⟩
  intro j hjlt
  obtain ⟨a, b, ha, hb, hrj⟩ := hj j (by simpa using hjlt)
  have hav : a = 1 + j := by
    rw [List.getElem?_range' 1 1 (by simpa using hjlt)] at ha
    simpa using ha.symm
  subst hav
  exact ⟨b, hb, hrj⟩

/-- Witness: the C2 amended theorem applied to the diagonal centerline
`(0,0), (1,1), (2,2)` with `L = 1`, `DEM_res = 1`. -/
theorem make_perp_count_interior_witness :
    ([(0:ℝ), 1, 2] : List ℝ).length = ([(0:ℝ), 1, 2] : List ℝ).length ∧
    3 ≤ ([(0:ℝ), 1, 2] : List ℝ).length ∧ (0:ℝ) < 1 ∧ (0:ℝ) < 1 ∧
    (∀ i ∈ List.range' 1 (([(0:ℝ), 1, 2] : List ℝ).length - 2),
      ([(0:ℝ), 1, 2] : List ℝ)[i + 1]! - ([(0:ℝ), 1, 2] : List ℝ)[i - 1]! ≠ 0 ∧
      ([(0:ℝ), 1, 2] : List ℝ)[i + 1]! - ([(0:ℝ), 1, 2] : List ℝ)[i - 1]! ≠ 0) ∧
    (∃ ts, make_perp_transects Real.sqrt [(0:ℝ), 1, 2] [(0:ℝ), 1, 2] 1 1 =
        .ok ts ∧
      ts.length = ([(0:ℝ), 1, 2] : List ℝ).length - 2 ∧
      ∀ j, j < ([(0:ℝ), 1, 2] : List ℝ).length - 2 →
        ∃ t, transectAt Real.sqrt [(0:ℝ), 1, 2] [(0:ℝ), 1, 2] 1 1 (1 + j) =
            .ok t ∧ ts[j]? = some t) := by
  have hnd : ∀ i ∈ List.range' 1 (([(0:ℝ), 1, 2] : List ℝ).length - 2),
      ([(0:ℝ), 1, 2] : List ℝ)[i + 1]! - ([(0:ℝ), 1, 2] : List ℝ)[i - 1]! ≠ 0 ∧
      ([(0:ℝ), 1, 2] : List ℝ)[i + 1]! - ([(0:ℝ), 1, 2] : List ℝ)[i - 1]! ≠ 0 := by
    intro i hi
    have h1 : ([(0:ℝ), 1, 2] : List ℝ).length - 2 = 1 := rfl
    rw [h1] at hi
    have : i = 1 := by
      have := List.mem_range'_1.mp hi
      omega
    subst this
    norm_num [getElem!_pos]
  exact ⟨rfl, by norm_num, by norm_num, by norm_num, hnd,
    make_perp_count_interior [(0:ℝ), 1, 2] [(0:ℝ), 1, 2] 1 1 rfl (by norm_num)
      (by norm_num) (by norm_num) hnd⟩

/-- C3: for every interior index at which the slope computation is
defined — equivalently, at which the oriented transect segment is
actually constructed (`transectLine` succeeds) — the two transect
endpoints lie at Euclidean distance exactly `L/2` from centerline point
`i`, and the segment joining them is perpendicular to the
central-difference chord `(x[i+1]-x[i-1], y[i+1]-y[i-1])`. -/
theorem transect_endpoints_geometry (xs ys : List ℝ) (L : ℝ) (i : ℕ)
    (ln : List (ℝ × ℝ)) (hL : 0 < L)
    (h : transectLine Real.sqrt xs ys L i = .ok ln) :
    ∃ p q : ℝ × ℝ, ln = [p, q] ∧
      Real.sqrt ((p.1 - xs[i]!) ^ 2 + (p.2 - ys[i]!) ^ 2) = L / 2 ∧
      Real.sqrt ((q.1 - xs[i]!) ^ 2 + (q.2 - ys[i]!) ^ 2) = L / 2 ∧
      (q.1 - p.1) * (xs[i + 1]! - xs[i - 1]!) +
        (q.2 - p.2) * (ys[i + 1]! - ys[i - 1]!) = 0 := by
  obtain ⟨xm, ym, xp, yp, xi, yi, hxm, hym, hxp, hyp, hxi, hyi, hdx, hS0,
    hcase⟩ := transectLine_ok_elim h
  have exm : xs[i - 1]! = xm := getElem_bang_of_some hxm
  have eym : ys[i - 1]! = ym := getElem_bang_of_some hym
  have exp2 : xs[i + 1]! = xp := getElem_bang_of_some hxp
  have eyp : ys[i + 1]! = yp := getElem_bang_of_some hyp
  have exi : xs[i]! = xi := getElem_bang_of_some hxi
  have eyi : ys[i]! = yi := getElem_bang_of_some hyi
  set Stv := slopeSt (slopeS xm ym xp yp) with hStv
  set xsh := xShift Real.sqrt L Stv with hxshd
  set ysh := yShift Real.sqrt L Stv with hyshd
  have hnorm : xsh ^ 2 + ysh ^ 2 = (L / 2) ^ 2 := shift_sq_norm L Stv
  have hsql : Real.sqrt ((L / 2) ^ 2) = L / 2 := Real.sqrt_sq (by linarith)
  have hdy : yp - ym ≠ 0 := by
    intro hc
    apply hS0
    unfold slopeS
    rw [hc, zero_div]
  have hStmul : Stv * (yp - ym) = -(xp - xm) := by
    rw [hStv]
    unfold slopeSt slopeS
    rw [div_div_eq_mul_div, div_mul_cancel₀ _ hdy]
    ring
  have hkey : xsh * (xp - xm) + ysh * (yp - ym) = 0 := by
    rw [hyshd, yShift, ← hxshd]
    linear_combination xsh * hStmul
  have hd1 : ((xi - xsh) - xi) ^ 2 + ((yi - ysh) - yi) ^ 2 = (L / 2) ^ 2 := by
    rw [← hnorm]; ring
  have hd2 : ((xi + xsh) - xi) ^ 2 + ((yi + ysh) - yi) ^ 2 = (L / 2) ^ 2 := by
    rw [← hnorm]; ring
  rcases hcase with ⟨hlt, hln⟩ | ⟨hlt, hln⟩
  · refine ⟨(xi - xsh, yi - ysh), (xi + xsh, yi + ysh), hln, ?_, ?_, ?_⟩
    · show Real.sqrt (((xi - xsh) - xs[i]!) ^ 2 + ((yi - ysh) - ys[i]!) ^ 2)
        = L / 2
      rw [exi, eyi, hd1, hsql]
    · show Real.sqrt (((xi + xsh) - xs[i]!) ^ 2 + ((yi + ysh) - ys[i]!) ^ 2)
        = L / 2
      rw [exi, eyi, hd2, hsql]
    · show ((xi + xsh) - (xi - xsh)) * (xs[i + 1]! - xs[i - 1]!) +
        ((yi + ysh) - (yi - ysh)) * (ys[i + 1]! - ys[i - 1]!) = 0
      rw [exp2, exm, eyp, eym]
      linear_combination 2 * hkey
  · refine ⟨(xi + xsh, yi + ysh), (xi - xsh, yi - ysh), hln, ?_, ?_, ?_⟩
    · show Real.sqrt (((xi + xsh) - xs[i]!) ^ 2 + ((yi + ysh) - ys[i]!) ^ 2)
        = L / 2
      rw [exi, eyi, hd2, hsql]
    · show Real.sqrt (((xi - xsh) - xs[i]!) ^ 2 + ((yi - ysh) - ys[i]!) ^ 2)
        = L / 2
      rw [exi, eyi, hd1, hsql]
    · show ((xi - xsh) - (xi + xsh)) * (xs[i + 1]! - xs[i - 1]!) +
        ((yi - ysh) - (yi + ysh)) * (ys[i + 1]! - ys[i - 1]!) = 0
      rw [exp2, exm, eyp, eym]
      linear_combination (-2) * hkey

/-- Witness: C3 applied to a 3-4-5 centerline chord — points `(0,0)`,
`(3/2,2)`, `(3,4)` with `L = 5` — where the oriented segment evaluates
in closed form to `[(-1/2, 7/2), (7/2, 1/2)]`. -/
theorem transect_endpoints_geometry_witness :
    (0:ℝ) < 5 ∧
    transectLine Real.sqrt [(0:ℝ), 3/2, 3] [(0:ℝ), 2, 4] 5 1 =
      .ok [(-(1:ℝ)/2, 7/2), ((7:ℝ)/2, 1/2)] ∧
    (∃ p q : ℝ × ℝ,
      ([(-(1:ℝ)/2, 7/2), ((7:ℝ)/2, 1/2)] : List (ℝ × ℝ)) = [p, q] ∧
      Real.sqrt ((p.1 - ([(0:ℝ), 3/2, 3] : List ℝ)[1]!) ^ 2 +
        (p.2 - ([(0:ℝ), 2, 4] : List ℝ)[1]!) ^ 2) = 5 / 2 ∧
      Real.sqrt ((q.1 - ([(0:ℝ), 3/2, 3] : List ℝ)[1]!) ^ 2 +
        (q.2 - ([(0:ℝ), 2, 4] : List ℝ)[1]!) ^ 2) = 5 / 2 ∧
      (q.1 - p.1) * (([(0:ℝ), 3/2, 3] : List ℝ)[1 + 1]! -
          ([(0:ℝ), 3/2, 3] : List ℝ)[1 - 1]!) +
        (q.2 - p.2) * (([(0:ℝ), 2, 4] : List ℝ)[1 + 1]! -
          ([(0:ℝ), 2, 4] : List ℝ)[1 - 1]!) = 0) := by
  have hs : Real.sqrt ((25:ℝ)/16) = 5/4 := by
    rw [show ((25:ℝ)/16) = (5/4) ^ 2 by norm_num]
    exact Real.sqrt_sq (by norm_num)
  have heval : transectLine Real.sqrt [(0:ℝ), 3/2, 3] [(0:ℝ), 2, 4] 5 1 =
      .ok [(-(1:ℝ)/2, 7/2), ((7:ℝ)/2, 1/2)] := by
    norm_num [transectLine, pyget, pydiv, exceptBind_ok, exceptBind_error, hs]
  exact ⟨by norm_num, heval,
    transect_endpoints_geometry [(0:ℝ), 3/2, 3] [(0:ℝ), 2, 4] 5 1 _
      (by norm_num) heval⟩

/-- C5: on the straight vertical centerline `(0,0), (0,1), (0,2)` with
`L = 4` and `DEM_res = 1`, the code does not produce horizontal
transects: the slope `S = (y[2]-y[0]) / (x[2]-x[0])` divides by zero
(`x` constant) and the whole call fails with a `ZeroDivisionError`. -/
theorem make_perp_vertical_raises :
    make_perp_transects Real.sqrt [(0:ℝ), 0, 0] [(0:ℝ), 1, 2] 4 1 =
      .error .zeroDivisionError := by
  norm_num [make_perp_transects, perpStep, transectLine, pyget, pydiv,
    List.foldlM, exceptBind_ok, exceptBind_error, exceptPure]

/-- C7: for every interior index at which the oriented transect segment
is constructed and every `DEM_res > 0`, the resampled transect's first
point (the one at along-transect distance 0) is
`(x[i] - x_shift, y[i] - y_shift)` when `y[i+1] > y[i-1]`, and the
order is reversed — first point `(x[i] + x_shift, y[i] + y_shift)` —
when `y[i+1] < y[i-1]`. -/
theorem transect_first_point_orientation (xs ys : List ℝ) (L D : ℝ) (i : ℕ)
    (ln : List (ℝ × ℝ)) (hD : 0 < D)
    (h : transectLine Real.sqrt xs ys L i = .ok ln) :
    ∃ tx ty tl, transectAt Real.sqrt xs ys L D i = .ok (tx, ty, tl) ∧
      tl.head? = some 0 ∧
      (ys[i - 1]! < ys[i + 1]! →
        tx.head? = some (xs[i]! - xShift Real.sqrt L (slopeSt
          (slopeS xs[i - 1]! ys[i - 1]! xs[i + 1]! ys[i + 1]!))) ∧
        ty.head? = some (ys[i]! - yShift Real.sqrt L (slopeSt
          (slopeS xs[i - 1]! ys[i - 1]! xs[i + 1]! ys[i + 1]!)))) ∧
      (ys[i + 1]! < ys[i - 1]! →
        tx.head? = some (xs[i]! + xShift Real.sqrt L (slopeSt
          (slopeS xs[i - 1]! ys[i - 1]! xs[i + 1]! ys[i + 1]!))) ∧
        ty.head? = some (ys[i]! + yShift Real.sqrt L (slopeSt
          (slopeS xs[i - 1]! ys[i - 1]! xs[i + 1]! ys[i + 1]!)))) := by
  obtain ⟨xm, ym, xp, yp, xi, yi, hxm, hym, hxp, hyp, hxi, hyi, hdx, hS0,
    hcase⟩ := transectLine_ok_elim h
  have exm : xs[i - 1]! = xm := getElem_bang_of_some hxm
  have eym : ys[i - 1]! = ym := getElem_bang_of_some hym
  have exp2 : xs[i + 1]! = xp := getElem_bang_of_some hxp
  have eyp : ys[i + 1]! = yp := getElem_bang_of_some hyp
  have exi : xs[i]! = xi := getElem_bang_of_some hxi
  have eyi : ys[i]! = yi := getElem_bang_of_some hyi
  have hlnne : ln ≠ [] := by
    rcases hcase with ⟨_, hln⟩ | ⟨_, hln⟩ <;> simp [hln]
  obtain ⟨l, axs, ays, haddm, hl0, hxh, hyh, _⟩ := addpts_master ln D hD hlnne
  refine ⟨axs, ays, l, ?_, hl0, ?_, ?_⟩
  · simp only [transectAt, h, exceptBind_ok, haddm]
  · intro hcond
    rw [eym, eyp] at hcond
    rcases hcase with ⟨hlt, hln⟩ | ⟨hlt, hln⟩
    · subst hln
      constructor
      · rw [hxh, exi, exm, eym, exp2, eyp]
        simp
      · rw [hyh, eyi, exm, eym, exp2, eyp]
        simp
    · exact absurd (lt_trans hcond hlt) (lt_irrefl _)
  · intro hcond
    rw [eym, eyp] at hcond
    rcases hcase with ⟨hlt, hln⟩ | ⟨hlt, hln⟩
    · exact absurd (lt_trans hcond hlt) (lt_irrefl _)
    · subst hln
      constructor
      · rw [hxh, exi, exm, eym, exp2, eyp]
        simp
      · rw [hyh, eyi, exm, eym, exp2, eyp]
        simp

/-- Witness: C7 applied to the centerline `(0,0), (3,4), (6,8)` with
`L = 10`, `DEM_res = 2`, whose oriented segment evaluates to
`[(-1, 7), (7, 1)]`. -/
theorem transect_first_point_orientation_witness :
    (0:ℝ) < 2 ∧
    transectLine Real.sqrt [(0:ℝ), 3, 6] [(0:ℝ), 4, 8] 10 1 =
      .ok [(-(1:ℝ), 7), ((7:ℝ), 1)] ∧
    (∃ tx ty tl, transectAt Real.sqrt [(0:ℝ), 3, 6] [(0:ℝ), 4, 8] 10 2 1 =
        .ok (tx, ty, tl) ∧
      tl.head? = some 0 ∧
      (([(0:ℝ), 4, 8] : List ℝ)[1 - 1]! < ([(0:ℝ), 4, 8] : List ℝ)[1 + 1]! →
        tx.head? = some (([(0:ℝ), 3, 6] : List ℝ)[1]! -
          xShift Real.sqrt 10 (slopeSt (slopeS ([(0:ℝ), 3, 6] : List ℝ)[1 - 1]!
            ([(0:ℝ), 4, 8] : List ℝ)[1 - 1]! ([(0:ℝ), 3, 6] : List ℝ)[1 + 1]!
            ([(0:ℝ), 4, 8] : List ℝ)[1 + 1]!))) ∧
        ty.head? = some (([(0:ℝ), 4, 8] : List ℝ)[1]! -
          yShift Real.sqrt 10 (slopeSt (slopeS ([(0:ℝ), 3, 6] : List ℝ)[1 - 1]!
            ([(0:ℝ), 4, 8] : List ℝ)[1 - 1]! ([(0:ℝ), 3, 6] : List ℝ)[1 + 1]!
            ([(0:ℝ), 4, 8] : List ℝ)[1 + 1]!)))) ∧
      (([(0:ℝ), 4, 8] : List ℝ)[1 + 1]! < ([(0:ℝ), 4, 8] : List ℝ)[1 - 1]! →
        tx.head? = some (([(0:ℝ), 3, 6] : List ℝ)[1]! +
          xShift Real.sqrt 10 (slopeSt (slopeS ([(0:ℝ), 3, 6] : List ℝ)[1 - 1]!
            ([(0:ℝ), 4, 8] : List ℝ)[1 - 1]! ([(0:ℝ), 3, 6] : List ℝ)[1 + 1]!
            ([(0:ℝ), 4, 8] : List ℝ)[1 + 1]!))) ∧
        ty.head? = some (([(0:ℝ), 4, 8] : List ℝ)[1]! +
          yShift Real.sqrt 10 (slopeSt (slopeS ([(0:ℝ), 3, 6] : List ℝ)[1 - 1]!
            ([(0:ℝ), 4, 8] : List ℝ)[1 - 1]! ([(0:ℝ), 3, 6] : List ℝ)[1 + 1]!
            ([(0:ℝ), 4, 8] : List ℝ)[1 + 1]!))))) := by
  have hs : Real.sqrt ((25:ℝ)/16) = 5/4 := by
    rw [show ((25:ℝ)/16) = (5/4) ^ 2 by norm_num]
    exact Real.sqrt_sq (by norm_num)
  have heval : transectLine Real.sqrt [(0:ℝ), 3, 6] [(0:ℝ), 4, 8] 10 1 =
      .ok [(-(1:ℝ), 7), ((7:ℝ), 1)] := by
    norm_num [transectLine, pyget, pydiv, exceptBind_ok, exceptBind_error, hs]
  exact ⟨by norm_num, heval,
    transect_first_point_orientation [(0:ℝ), 3, 6] [(0:ℝ), 4, 8] 10 2 1 _
      (by norm_num) heval⟩
